import Mathlib

/-!
# TranzBot supervisor (`index.js`)

A shallow embedding of the process supervisor of `index.js`: the version gate,
`start()`, the `message` and `exit` handlers of the spawned child, the restart
timer, and the process-wide fault guards with their `unhandledRejections` map.

Handlers are translated to functions that return the list of effects they
perform, in source order.  The event loop is a step function over the events
"child message", "child exit", "2000 ms timer fires" and "banner completes",
together with the two ways the host can fail the supervisor: a spawn that
starts no process, and a `displayHeader()` promise that rejects.
Terminal styling (`chalk`, `gradient-string`, `figlet`, `cfonts`) is treated as
the identity on text, and `displayHeader()` as a promise that resolves or
rejects later.
-/

namespace TranzBot

/-! ## JavaScript values -/

/-- JavaScript values that can reach the handlers.  Numbers are the integral
ones (exit codes, message payloads); objects are finite property lists. -/
inductive JSValue where
  | undefined
  | null
  | boolean (b : Bool)
  | number (n : Int)
  | string (s : String)
  | object (props : List (String × JSValue))

/-- Property read `v.k`.  Reading a property of `undefined` or `null` throws a
`TypeError`; primitives have no own property and none of the names read by
`index.js` (`code`) is on a primitive prototype, so the read gives
`undefined`; an object gives the stored value or `undefined`. -/
def JSValue.getProp : JSValue → String → Except String JSValue
  | .undefined, k => .error ("TypeError: Cannot read properties of undefined (reading " ++ k ++ ")")
  | .null, k => .error ("TypeError: Cannot read properties of null (reading " ++ k ++ ")")
  | .object props, k => .ok ((props.lookup k).getD .undefined)
  | _, _ => .ok .undefined

/-- Strict equality `v === 'lit'` against a string literal. -/
def strictEqString : JSValue → String → Bool
  | .string s, lit => decide (s = lit)
  | _, _ => false

/-- JavaScript `ToBoolean`. -/
def JSValue.truthy : JSValue → Bool
  | .undefined => false
  | .null => false
  | .boolean b => b
  | .number n => decide (n ≠ 0)
  | .string s => decide (s ≠ "")
  | .object _ => true

/-- The operator `a || b`: `a` when `a` is truthy, else `b`. -/
def jsOr (a b : JSValue) : JSValue :=
  if a.truthy then a else b

/-- JavaScript `ToString`, as applied inside a template literal. -/
def JSValue.toStr : JSValue → String
  | .undefined => "undefined"
  | .null => "null"
  | .boolean true => "true"
  | .boolean false => "false"
  | .number n => toString n
  | .string s => s
  | .object _ => "[object Object]"

/-- An exit code as delivered to the `exit` listener: a number, or `null`. -/
def codeValue : Option Nat → JSValue
  | some c => .number c
  | none => .null

/-- A signal name as delivered to the `exit` listener: a string, or `null`. -/
def signalValue : Option String → JSValue
  | some s => .string s
  | none => .null

/-! ## Objects and maps as ordered association lists -/

/-- Property write `o[k] = v` (also `Map.prototype.set`): an existing key keeps
its position and gets the new value, a new key is appended. -/
def objectSet {κ ν : Type} [DecidableEq κ] : List (κ × ν) → κ → ν → List (κ × ν)
  | [], k, v => [(k, v)]
  | (k0, v0) :: rest, k, v =>
    if k0 = k then (k, v) :: rest else (k0, v0) :: objectSet rest k v

/-- Removal of a key (`Map.prototype.delete`). -/
def objectDelete {κ ν : Type} [DecidableEq κ] (o : List (κ × ν)) (k : κ) : List (κ × ν) :=
  o.filter (fun e => decide (e.1 ≠ k))

/-- Property read of an association list. -/
def objectGet {κ ν : Type} [DecidableEq κ] : List (κ × ν) → κ → Option ν
  | [], _ => none
  | (k0, v0) :: rest, k => if k0 = k then some v0 else objectGet rest k

/-- The keys of an association list, in order. -/
def objectKeys {κ ν : Type} (o : List (κ × ν)) : List κ :=
  o.map Prod.fst

/-! ## Effects -/

/-- What follows a `displayHeader()` promise: `.then(start)` or the boot
callback `.then(() => { console.log(...); start() })`. -/
inductive Cont where
  | start
  | announceThenStart
  deriving DecidableEq, Repr

/-- One argument of a console call. -/
inductive LogArg where
  | text (s : String)
  | value (v : JSValue)
  | promise (id : Nat)
  | figlet (s : String)

/-- The observable effects of the supervisor, one per call in the source. -/
inductive Effect where
  | consoleClear
  | consoleLog (args : List LogArg)
  | consoleError (args : List LogArg)
  | clearRequireCache
  | gc
  | spawn (command : Option String) (args : List String) (env : List (String × String))
  | kill (p : Nat)
  | setTimeout (delay : Nat)
  | displayHeaderThen (k : Cont)
  | processExit (code : Nat)

/-- The host process as seen by `index.js`. -/
structure Host where
  /-- The string `process.versions.node`. -/
  nodeVersion : String
  /-- The vector `process.argv`. -/
  argv : List String
  /-- The object `process.env`. -/
  env : List (String × String)
  /-- The directory `__dirname`. -/
  dirname : String
  /-- The library function `path.join` on two segments. -/
  pathJoin : String → String → String
  /-- Whether `global.gc` is defined. -/
  gcExposed : Bool

/-! ## `start()` and the child's listeners -/

/-- Line 60: `[path.join(__dirname, 'client.js'), ...process.argv.slice(2)]`. -/
def startArgs (h : Host) : List String :=
  h.pathJoin h.dirname "client.js" :: h.argv.drop 2

/-- Lines 64-67: `{ ...process.env, NODE_OPTIONS: '--max-old-space-size=4096' }`. -/
def spawnEnv (h : Host) : List (String × String) :=
  objectSet h.env "NODE_OPTIONS" "--max-old-space-size=4096"

/-- The function `start()`: one `spawn(process.argv[0], args, { stdio, env })`.
The two listeners it attaches are `onMessage p` and `onExit`, with `p` the
child that this call spawned. -/
def start (h : Host) : List Effect :=
  [.spawn h.argv.head? (startArgs h) (spawnEnv h)]

/-- The `message` listener of child `p` (lines 69-76).  `delete p` on a
`let` binding does nothing and is left out. -/
def onMessage (p : Nat) (data : JSValue) : List Effect :=
  if strictEqString data "reset" then
    [.consoleLog [.text "\n🔄 Restarting MD SHOP..."], .kill p, .displayHeaderThen .start]
  else []

/-- The value interpolated at the end of the exit log line: `code || signal`. -/
def exitReport (code : Option Nat) (signal : Option String) : String :=
  (jsOr (codeValue code) (signalValue signal)).toStr

/-- The `exit` listener (lines 77-84).  `elapsed` is the text of
`((endTime - startTime)/1000).toFixed(2)`. -/
def onExit (elapsed : String) (code : Option Nat) (signal : Option String) : List Effect :=
  [.consoleError [.text ("❌ Process exited after " ++ elapsed ++ "s with code: "
      ++ exitReport code signal)],
   .setTimeout 2000]

/-- The callback given to `setTimeout` by the `exit` listener (lines 80-83). -/
def onRestartTimer : List Effect :=
  [.consoleLog [.text "\n🔄 Attempting to restart MD SHOP..."], .displayHeaderThen .start]

/-- What runs when a `displayHeader()` promise resolves. -/
def runCont (h : Host) : Cont → List Effect
  | .start => start h
  | .announceThenStart =>
    .consoleLog [.text "\n✅ Initialization complete. Starting MD...\n"] :: start h

/-! ## The event loop -/

/-- Life cycle of a child handle returned by `spawn`: running, sent a kill
signal but not yet exited, exited, or failed to start.  A child that failed to
start (`ENOENT`, `EAGAIN`, ...) emits `error` and never `exit`; `start()`
attaches no `error` listener to it. -/
inductive ChildStatus where
  | running
  | killed
  | exited
  | failed
  deriving DecidableEq, Repr

/-- State of the supervisor between two events. -/
structure Supervisor where
  /-- Every child spawned so far, oldest first; the index is the child. -/
  children : List ChildStatus
  /-- Delays of the pending restart timers, oldest first. -/
  timers : List Nat
  /-- Continuations of the pending `displayHeader()` promises, oldest first. -/
  banners : List Cont
  /-- Every call made so far by the top level, `start()` and its listeners,
  oldest first.  What the fault guards print is not part of it. -/
  trace : List Effect

/-- The events of the event loop.  An `exit` carries the elapsed-time text with
the `(code, signal)` pair.  A pending `displayHeader()` promise ends in one of
three ways: it resolves and the process asked for starts (`banner`), it
resolves and the operating system fails to start the process
(`bannerSpawnFailed`), or it rejects (`bannerRejected`): `os.cpus()[0].model`
or the dynamic `import` inside `displayHeader()` can throw, and none of the
`.then(...)` call sites has a rejection handler. -/
inductive Event where
  | message (child : Nat) (data : JSValue)
  | exit (child : Nat) (elapsed : String) (code : Option Nat) (signal : Option String)
  | timer
  | banner
  | bannerSpawnFailed
  | bannerRejected

/-- Replace the status of child `p` by `f` of it. -/
def updateChild (f : ChildStatus → ChildStatus) : List ChildStatus → Nat → List ChildStatus
  | [], _ => []
  | c :: rest, 0 => f c :: rest
  | c :: rest, p + 1 => c :: updateChild f rest p

/-- Effect of `p.kill()` on a child's status. -/
def ChildStatus.kill : ChildStatus → ChildStatus
  | .running => .killed
  | s => s

/-- Whether a child is active: a process that was started and has not yet
exited. -/
def ChildStatus.active : ChildStatus → Bool
  | .exited => false
  | .failed => false
  | _ => true

/-- The child handles that one `spawn(command, ...)` call leaves behind: one,
for a process taken to be running, when there is a command; none when the
command is undefined (`process.argv[0]` missing), for then the call throws
inside the `async` function `start` and no listener is attached. -/
def spawnedBy : Option String → List ChildStatus
  | some _ => [.running]
  | none => []

/-- Perform one effect: record it and update the runtime state. -/
def perform (s : Supervisor) (e : Effect) : Supervisor :=
  let s1 := { s with trace := s.trace ++ [e] }
  match e with
  | .spawn command _ _ => { s1 with children := s1.children ++ spawnedBy command }
  | .kill p => { s1 with children := updateChild ChildStatus.kill s1.children p }
  | .setTimeout d => { s1 with timers := s1.timers ++ [d] }
  | .displayHeaderThen k => { s1 with banners := s1.banners ++ [k] }
  | _ => s1

/-- Perform a list of effects in order. -/
def performAll (s : Supervisor) (es : List Effect) : Supervisor :=
  es.foldl perform s

/-- Whether child `p` has been spawned and has not exited. -/
def isActive (s : Supervisor) (p : Nat) : Bool :=
  match s.children[p]? with
  | some c => c.active
  | none => false

/-- The number of active children. -/
def activeCount (s : Supervisor) : Nat :=
  (s.children.filter ChildStatus.active).length

/-- One turn of the event loop; `none` when the event cannot occur in `s`.
On `bannerSpawnFailed` the continuation runs as on `banner` and the handle it
obtained, child `s.children.length`, is the one that fails to start; the
event needs a command to hand to the operating system.  On `bannerRejected`
the continuation is dropped and `start()` is not called.  The `error` event
and the rejection go to the fault guards, which are modelled on their own
below. -/
def step (h : Host) (s : Supervisor) : Event → Option Supervisor
  | .message p data =>
    if isActive s p then some (performAll s (onMessage p data)) else none
  | .exit p elapsed code signal =>
    if isActive s p then
      some (performAll { s with children := updateChild (fun _ => .exited) s.children p }
        (onExit elapsed code signal))
    else none
  | .timer =>
    match s.timers with
    | [] => none
    | _ :: rest => some (performAll { s with timers := rest } onRestartTimer)
  | .banner =>
    match s.banners with
    | [] => none
    | k :: rest => some (performAll { s with banners := rest } (runCont h k))
  | .bannerSpawnFailed =>
    match s.banners, h.argv.head? with
    | k :: rest, some _ =>
      let s1 := performAll { s with banners := rest } (runCont h k)
      some { s1 with children := updateChild (fun _ => .failed) s1.children s.children.length }
    | _, _ => none
  | .bannerRejected =>
    match s.banners with
    | [] => none
    | _ :: rest => some { s with banners := rest }

/-- Run a sequence of events. -/
def runEvents (h : Host) : Supervisor → List Event → Option Supervisor
  | s, [] => some s
  | s, e :: es => (step h s e).bind (fun s1 => runEvents h s1 es)

/-! ## The version gate and boot -/

/-- The white space skipped by `parseInt` (`StrWhiteSpaceChar`). -/
def isStrWhiteSpace (c : Char) : Bool :=
  c.toNat ∈ [0x9, 0xA, 0xB, 0xC, 0xD, 0x20, 0xA0, 0x1680, 0x2028, 0x2029, 0x202F, 0x205F,
    0x3000, 0xFEFF] || (0x2000 ≤ c.toNat && c.toNat ≤ 0x200A)

/-- Value of a run of decimal digits, most significant first. -/
def digitsValue (ds : List Char) : Nat :=
  ds.foldl (fun acc c => 10 * acc + (c.toNat - 48)) 0

/-- The optional sign that `parseInt` reads in front of the digits: whether
it is `-`, and what follows it. -/
def parseSign : List Char → Bool × List Char
  | '-' :: r => (true, r)
  | '+' :: r => (false, r)
  | t => (false, t)

/-- The call `parseInt(s, 10)`; `none` is `NaN`.  Leading white space is
skipped, an optional sign is read, then the longest run of decimal digits;
the result is `NaN` when that run is empty. -/
def parseInt10 (s : List Char) : Option Int :=
  let signed := parseSign (s.dropWhile isStrWhiteSpace)
  let ds := signed.2.takeWhile Char.isDigit
  if ds.isEmpty then none
  else some (if signed.1 then - (digitsValue ds : Int) else (digitsValue ds : Int))

/-- Line 177: `parseInt(process.versions.node.split('.')[0], 10)`. -/
def major (version : String) : Option Int :=
  parseInt10 (version.data.takeWhile (fun c => decide (c ≠ '.')))

/-- The comparison `x < n` on numbers; false when `x` is `NaN`. -/
def jsLess (x : Option Int) (n : Int) : Bool :=
  match x with
  | some m => decide (m < n)
  | none => false

/-- The console output of lines 179-192. -/
def versionErrorBanner (version : String) : List Effect :=
  [.consoleClear,
   .consoleLog [.text (String.mk (List.replicate 70 '═'))],
   .consoleLog [.figlet "ERROR"],
   .consoleLog [],
   .consoleLog [.text ("This application requires " ++ "Node.js 20+" ++ " to run optimally.")],
   .consoleLog [.text ("Current version installed: " ++ version)],
   .consoleLog [],
   .consoleLog [.text "Recommended installation methods:"],
   .consoleLog [.text ("• Using nvm: " ++ "nvm install 20 && nvm use 20")],
   .consoleLog [.text ("• Direct download: " ++ "https://nodejs.org/en/download/")],
   .consoleLog [.text (String.mk (List.replicate 70 '═'))]]

/-- Outcome of running the top level of `index.js`. -/
inductive Boot where
  | halted (trace : List Effect)
  | supervising (s : Supervisor)

/-- The top level of `index.js`: `console.clear()` (line 11), the version gate
(lines 177-194), then `displayHeader().then(...)` (lines 196-199). -/
def boot (h : Host) : Boot :=
  if jsLess (major h.nodeVersion) 20 then
    .halted (.consoleClear :: (versionErrorBanner h.nodeVersion ++ [.processExit 1]))
  else
    .supervising (perform ⟨[], [], [], [.consoleClear]⟩ (.displayHeaderThen .announceThenStart))

/-- The supervisor state right after boot on a host that passes the gate. -/
def initial : Supervisor :=
  perform ⟨[], [], [], [.consoleClear]⟩ (.displayHeaderThen .announceThenStart)

/-! ## Fault guards -/

/-- How a listener finished: normally (`none`) or by throwing. -/
structure GuardResult where
  effects : List Effect
  thrown : Option String

/-- The `uncaughtException` listener (lines 15-23). -/
def onUncaughtException (h : Host) (err : JSValue) : GuardResult :=
  match err.getProp "code" with
  | .error e => ⟨[], some e⟩
  | .ok c =>
    if strictEqString c "ENOMEM" then
      ⟨[.consoleError [.text "⚠ Critical Error: Out of memory. Performing cleanup..."],
        .clearRequireCache] ++ (if h.gcExposed then [.gc] else []), none⟩
    else
      ⟨[.consoleError [.text "⚠ Uncaught Exception:", .value err]], none⟩

/-- The `unhandledRejection` listener (lines 25-33), on the map
`unhandledRejections` keyed by promise. -/
def onUnhandledRejection (m : List (Nat × JSValue)) (reason : JSValue) (promise : Nat) :
    List (Nat × JSValue) × GuardResult :=
  let m1 := objectSet m promise reason
  match reason.getProp "code" with
  | .error e => (m1, ⟨[], some e⟩)
  | .ok c =>
    if strictEqString c "ENOMEM" then
      (m1, ⟨[.consoleError [.text "⚠ Memory Warning: Attempting recovery..."],
        .clearRequireCache], none⟩)
    else
      (m1, ⟨[.consoleLog [.text "⚠ Unhandled Rejection at:", .promise promise,
        .text "reason:", .value reason]], none⟩)

/-- The `rejectionHandled` listener (lines 35-37). -/
def onRejectionHandled (m : List (Nat × JSValue)) (promise : Nat) : List (Nat × JSValue) :=
  objectDelete m promise

/-- The two process events that touch `unhandledRejections`. -/
inductive RejectionEvent where
  | unhandledRejection (reason : JSValue) (promise : Nat)
  | rejectionHandled (promise : Nat)

/-- The promise an event is about. -/
def RejectionEvent.promise : RejectionEvent → Nat
  | .unhandledRejection _ p => p
  | .rejectionHandled p => p

/-- The map after one event. -/
def track (m : List (Nat × JSValue)) : RejectionEvent → List (Nat × JSValue)
  | .unhandledRejection reason p => (onUnhandledRejection m reason p).1
  | .rejectionHandled p => onRejectionHandled m p

/-- The map after a sequence of events, starting from `m`. -/
def trackAll (m : List (Nat × JSValue)) (evs : List RejectionEvent) : List (Nat × JSValue) :=
  evs.foldl track m

/-- Whether the most recent event about promise `p` is an `unhandledRejection`. -/
def lastIsUnhandled (p : Nat) : List RejectionEvent → Bool
  | [] => false
  | e :: rest =>
    if rest.any (fun e1 => decide (e1.promise = p)) then lastIsUnhandled p rest
    else
      match e with
      | .unhandledRejection _ q => decide (q = p)
      | .rejectionHandled _ => false

/-! ## Observers used in the statements -/

/-- Whether an effect is a `spawn` call. -/
def Effect.isSpawn : Effect → Bool
  | .spawn _ _ _ => true
  | _ => false

/-- Whether an effect is a `setTimeout` call. -/
def Effect.isSetTimeout : Effect → Bool
  | .setTimeout _ => true
  | _ => false

/-- Whether an effect is a `displayHeader().then(...)` chain. -/
def Effect.isDisplayHeader : Effect → Bool
  | .displayHeaderThen _ => true
  | _ => false

/-- Whether an effect is a `process.exit` call. -/
def Effect.isProcessExit : Effect → Bool
  | .processExit _ => true
  | _ => false

/-- Whether an effect writes to the console (`console.log` or `console.error`). -/
def Effect.isConsoleWrite : Effect → Bool
  | .consoleLog _ => true
  | .consoleError _ => true
  | _ => false

/-- Whether an effect is a `kill` call. -/
def Effect.isKill : Effect → Bool
  | .kill _ => true
  | _ => false

/-- A host used for concrete runs: Node 20.11.0 started as
`node index.js --pairing` with `NODE_OPTIONS` already set by the parent. -/
def exampleHost : Host where
  nodeVersion := "20.11.0"
  argv := ["/usr/bin/node", "/app/index.js", "--pairing"]
  env := [("PATH", "/usr/bin"), ("NODE_OPTIONS", "--inspect")]
  dirname := "/app"
  pathJoin := fun a b => a ++ "/" ++ b
  gcExposed := false

/-- The events of one unattended restart of child `p`: it exits, the 2000 ms
timer fires, the banner completes. -/
def exitRound (p : Nat) (x : String × Option Nat × Option String) : List Event :=
  [.exit p x.1 x.2.1 x.2.2, .timer, .banner]

/-- A run in which every child exits on its own, starting with child `p`;
each entry gives the elapsed-time text, code and signal of one exit. -/
def crashLoop : Nat → List (String × Option Nat × Option String) → List Event
  | _, [] => []
  | p, x :: xs => exitRound p x ++ crashLoop (p + 1) xs

/-- Whether an event is a message whose payload is the string `reset`. -/
def Event.isReset : Event → Bool
  | .message _ data => strictEqString data "reset"
  | _ => false

/-- Whether an event is a failure of the host: a spawn that does not start a
process, or a rejected `displayHeader()`. -/
def Event.isFailure : Event → Bool
  | .bannerSpawnFailed => true
  | .bannerRejected => true
  | _ => false

end TranzBot

namespace TranzBot

/-! ## Association lists -/

theorem objectGet_objectSet_self {κ ν : Type} [DecidableEq κ] (o : List (κ × ν)) (k : κ)
    (v : ν) : objectGet (objectSet o k v) k = some v := by
  induction o with
  | nil => simp [objectSet, objectGet]
  | cons e rest ih =>
    obtain ⟨k0, v0⟩ := e
    by_cases hk : k0 = k
    · simp [objectSet, objectGet, hk]
    · simp [objectSet, objectGet, hk, ih]

theorem objectGet_objectSet_other {κ ν : Type} [DecidableEq κ] (o : List (κ × ν)) (k j : κ)
    (v : ν) (hj : j ≠ k) : objectGet (objectSet o k v) j = objectGet o j := by
  induction o with
  | nil => simp [objectSet, objectGet, Ne.symm hj]
  | cons e rest ih =>
    obtain ⟨k0, v0⟩ := e
    by_cases hk : k0 = k
    · subst hk
      simp [objectSet, objectGet, Ne.symm hj]
    · by_cases hj0 : k0 = j
      · subst hj0
        simp [objectSet, objectGet, hk]
      · simp [objectSet, objectGet, hk, hj0, ih]

theorem mem_objectKeys_objectSet {κ ν : Type} [DecidableEq κ] (o : List (κ × ν)) (k j : κ)
    (v : ν) : j ∈ objectKeys (objectSet o k v) ↔ j ∈ objectKeys o ∨ j = k := by
  induction o with
  | nil => simp [objectSet, objectKeys]
  | cons e rest ih =>
    obtain ⟨k0, v0⟩ := e
    have ih1 : j ∈ List.map Prod.fst (objectSet rest k v) ↔
        j ∈ List.map Prod.fst rest ∨ j = k := ih
    by_cases hk : k0 = k
    · subst hk
      simp only [objectSet, objectKeys, if_true, List.map_cons, List.mem_cons]
      tauto
    · simp only [objectSet, objectKeys, hk, if_false, List.map_cons, List.mem_cons, ih1]
      tauto

theorem mem_objectKeys_objectDelete {κ ν : Type} [DecidableEq κ] (o : List (κ × ν)) (k j : κ) :
    j ∈ objectKeys (objectDelete o k) ↔ j ∈ objectKeys o ∧ j ≠ k := by
  simp only [objectKeys, objectDelete, List.mem_map, List.mem_filter, decide_eq_true_eq]
  constructor
  · rintro ⟨e, ⟨he, hne⟩, rfl⟩
    exact ⟨⟨e, he, rfl⟩, hne⟩
  · rintro ⟨⟨e, he, rfl⟩, hne⟩
    exact ⟨e, ⟨he, hne⟩, rfl⟩

theorem objectGet_objectDelete_other {κ ν : Type} [DecidableEq κ] (o : List (κ × ν)) (k j : κ)
    (hj : j ≠ k) : objectGet (objectDelete o k) j = objectGet o j := by
  induction o with
  | nil => rfl
  | cons e rest ih =>
    obtain ⟨k0, v0⟩ := e
    have ih1 : objectGet (List.filter (fun e => decide (e.1 ≠ k)) rest) j = objectGet rest j := ih
    by_cases hk : k0 = k
    · subst hk
      have hne : ¬ k0 = j := fun hh => hj hh.symm
      simp only [objectDelete, List.filter_cons, ne_eq, not_true_eq_false, decide_False,
        Bool.false_eq_true, if_false, objectGet, hne]
      exact ih1
    · by_cases hj0 : k0 = j
      · subst hj0
        simp only [objectDelete, List.filter_cons, ne_eq, hk, not_false_eq_true, decide_True,
          if_true, objectGet]
      · simp only [objectDelete, List.filter_cons, ne_eq, hk, not_false_eq_true, decide_True,
          if_true, objectGet, hj0, if_false]
        exact ih1

/-! ## Strict equality -/

theorem strictEqString_iff (v : JSValue) (lit : String) :
    strictEqString v lit = true ↔ v = .string lit := by
  cases v <;> simp [strictEqString]

/-! ## Spawn arguments and environment -/

/-- C7: with `argv = node :: script :: rest`, `start()` spawns `node` with the
argument list `path.join(__dirname, 'client.js') :: rest`: the forwarded
arguments are `argv[2..]` in order, nothing added or dropped, and neither the
boot sequence with its version gate nor the child environment depends on
`argv`. -/
theorem start_forwards_arguments (h : Host) (node script : String) (rest : List String) :
    start { h with argv := node :: script :: rest } =
        [Effect.spawn (some node) (h.pathJoin h.dirname "client.js" :: rest) (spawnEnv h)] ∧
      (startArgs { h with argv := node :: script :: rest }).length = rest.length + 1 ∧
      (startArgs { h with argv := node :: script :: rest }).tail = rest ∧
      (∀ i, rest.get? i = (node :: script :: rest).get? (i + 2)) ∧
      (∀ argv1 : List String, boot { h with argv := argv1 } = boot h ∧
        spawnEnv { h with argv := argv1 } = spawnEnv h) := by
  refine ⟨rfl, ?_, rfl, ?_, ?_⟩
  · simp [startArgs]
  · intro i
    simp
  · intro argv1
    exact ⟨rfl, rfl⟩

/-- C8: the environment handed to `spawn` maps `NODE_OPTIONS` to
`--max-old-space-size=4096` whatever the parent defines, agrees with the
parent environment on every other key, and has no key beyond the parent's
keys and `NODE_OPTIONS`. -/
theorem spawn_env_override (h : Host) :
    start h = [Effect.spawn h.argv.head? (startArgs h) (spawnEnv h)] ∧
      objectGet (spawnEnv h) "NODE_OPTIONS" = some "--max-old-space-size=4096" ∧
      (∀ k, k ≠ "NODE_OPTIONS" → objectGet (spawnEnv h) k = objectGet h.env k) ∧
      (∀ k, k ∈ objectKeys (spawnEnv h) ↔ k ∈ objectKeys h.env ∨ k = "NODE_OPTIONS") := by
  refine ⟨rfl, ?_, ?_, ?_⟩
  · exact objectGet_objectSet_self _ _ _
  · intro k hk
    exact objectGet_objectSet_other _ _ _ _ hk
  · intro k
    exact mem_objectKeys_objectSet _ _ _ _

/-! ## Child bookkeeping -/

theorem updateChild_length (f : ChildStatus → ChildStatus) (cs : List ChildStatus) (p : Nat) :
    (updateChild f cs p).length = cs.length := by
  induction cs generalizing p with
  | nil => rfl
  | cons c rest ih =>
    cases p with
    | zero => rfl
    | succ q => simp [updateChild, ih]

theorem active_filter_kill (cs : List ChildStatus) (p : Nat) :
    ((updateChild ChildStatus.kill cs p).filter ChildStatus.active).length =
      (cs.filter ChildStatus.active).length := by
  induction cs generalizing p with
  | nil => rfl
  | cons c rest ih =>
    cases p with
    | zero => cases c <;> rfl
    | succ q =>
      cases c <;> simp [updateChild, List.filter_cons, ChildStatus.active, ih]

theorem active_filter_exit (cs : List ChildStatus) (p : Nat) (c : ChildStatus)
    (hget : cs[p]? = some c) (hact : c.active = true) :
    ((updateChild (fun _ => ChildStatus.exited) cs p).filter ChildStatus.active).length + 1 =
      (cs.filter ChildStatus.active).length := by
  induction cs generalizing p with
  | nil => simp at hget
  | cons c0 rest ih =>
    cases p with
    | zero =>
      simp only [List.getElem?_cons_zero, Option.some.injEq] at hget
      subst hget
      cases c0 <;> simp [updateChild, List.filter_cons, ChildStatus.active] at hact ⊢
    | succ q =>
      simp only [List.getElem?_cons_succ] at hget
      have ih1 := ih q hget
      cases c0 <;> simp [updateChild, List.filter_cons, ChildStatus.active] <;> omega

theorem active_filter_spawn (cs : List ChildStatus) :
    ((cs ++ [ChildStatus.running]).filter ChildStatus.active).length =
      (cs.filter ChildStatus.active).length + 1 := by
  simp [List.filter_append, ChildStatus.active]

theorem spawnedBy_length (command : Option String) :
    (spawnedBy command).length ≤ 1 ∧
      (command.isSome = true → spawnedBy command = [ChildStatus.running]) := by
  cases command <;> simp [spawnedBy]

theorem active_filter_spawnedBy (cs : List ChildStatus) (command : Option String) :
    ((cs ++ spawnedBy command).filter ChildStatus.active).length =
      (cs.filter ChildStatus.active).length + (spawnedBy command).length := by
  cases command <;> simp [spawnedBy, List.filter_append, ChildStatus.active]

theorem updateChild_append_last (f : ChildStatus → ChildStatus) (cs : List ChildStatus)
    (c : ChildStatus) : updateChild f (cs ++ [c]) cs.length = cs ++ [f c] := by
  induction cs with
  | nil => rfl
  | cons c0 rest ih => simp [updateChild, ih]

theorem performAll_trace (es : List Effect) :
    ∀ s : Supervisor, (performAll s es).trace = s.trace ++ es := by
  induction es with
  | nil => intro s; simp [performAll]
  | cons e rest ih =>
    intro s
    have hstep : performAll s (e :: rest) = performAll (perform s e) rest := rfl
    have hone : (perform s e).trace = s.trace ++ [e] := by
      cases e <;> rfl
    rw [hstep, ih, hone]
    simp

theorem performAll_runCont (h : Host) (s : Supervisor) (k : Cont) :
    (performAll s (runCont h k)).children = s.children ++ spawnedBy h.argv.head? ∧
      (performAll s (runCont h k)).timers = s.timers ∧
      (performAll s (runCont h k)).banners = s.banners ∧
      (performAll s (runCont h k)).trace = s.trace ++ runCont h k :=
  ⟨by cases k <;> rfl, by cases k <;> rfl, by cases k <;> rfl, performAll_trace _ _⟩

/-- Active children, pending timers and pending banners, counted together:
an event other than a `reset` message never raises the count, and an event
other than a host failure, on a host with a command to spawn, never lowers
it. -/
theorem step_pending (h : Host) (s s1 : Supervisor) (e : Event) (hstep : step h s e = some s1) :
    (e.isReset = false →
        activeCount s1 + s1.timers.length + s1.banners.length ≤
          activeCount s + s.timers.length + s.banners.length) ∧
      (e.isFailure = false → h.argv.head?.isSome = true →
        activeCount s + s.timers.length + s.banners.length ≤
          activeCount s1 + s1.timers.length + s1.banners.length) := by
  obtain ⟨cs, ts, bs, tr⟩ := s
  cases e with
  | message p data =>
    by_cases hact : isActive ⟨cs, ts, bs, tr⟩ p = true
    · by_cases hr : strictEqString data "reset" = true
      · simp only [step, hact, if_true, Option.some.injEq] at hstep
        subst hstep
        simp [onMessage, hr, performAll, perform, activeCount, active_filter_kill, Event.isReset]
      · simp only [step, hact, if_true, Option.some.injEq] at hstep
        subst hstep
        simp [onMessage, hr, performAll]
    · simp [step, hact] at hstep
  | exit p elapsed code signal =>
    by_cases hact : isActive ⟨cs, ts, bs, tr⟩ p = true
    · simp only [step, hact, if_true, Option.some.injEq] at hstep
      subst hstep
      have hget : ∃ c, cs[p]? = some c ∧ c.active = true := by
        simp only [isActive] at hact
        cases hc : cs[p]? with
        | none => simp [hc] at hact
        | some c => exact ⟨c, rfl, by simpa [hc] using hact⟩
      obtain ⟨c, hc, hca⟩ := hget
      have hcount := active_filter_exit cs p c hc hca
      simp only [onExit, performAll, perform, activeCount, List.foldl_cons, List.foldl_nil,
        List.length_append, List.length_singleton, Event.isReset, Event.isFailure]
      omega
    · simp [step, hact] at hstep
  | timer =>
    cases ts with
    | nil => simp [step] at hstep
    | cons d rest =>
      simp only [step, Option.some.injEq] at hstep
      subst hstep
      simp only [onRestartTimer, performAll, perform, activeCount, List.foldl_cons,
        List.foldl_nil, List.length_append, List.length_singleton, List.length_cons,
        List.length_nil, Event.isReset, Event.isFailure]
      omega
  | banner =>
    cases bs with
    | nil => simp [step] at hstep
    | cons k rest =>
      simp only [step, Option.some.injEq] at hstep
      subst hstep
      obtain ⟨hc, ht, hb, _⟩ := performAll_runCont h ⟨cs, ts, rest, tr⟩ k
      have hlen := spawnedBy_length h.argv.head?
      have hact := active_filter_spawnedBy cs h.argv.head?
      simp only [activeCount, hc, ht, hb, List.length_cons, Event.isReset, Event.isFailure]
      constructor
      · intro _
        omega
      · intro _ hsome
        have hone := congrArg List.length (hlen.2 hsome)
        simp only [List.length_singleton] at hone
        omega
  | bannerSpawnFailed =>
    cases bs with
    | nil => simp [step] at hstep
    | cons k rest =>
      cases hcmd : h.argv.head? with
      | none => simp [step, hcmd] at hstep
      | some cmd =>
        simp only [step, hcmd, Option.some.injEq] at hstep
        subst hstep
        obtain ⟨hc, ht, hb, _⟩ := performAll_runCont h ⟨cs, ts, rest, tr⟩ k
        simp only [activeCount, hc, ht, hb, hcmd, spawnedBy, updateChild_append_last,
          List.filter_append, List.length_append, List.length_cons, Event.isReset,
          Event.isFailure]
        simp [ChildStatus.active]
  | bannerRejected =>
    cases bs with
    | nil => simp [step] at hstep
    | cons k rest =>
      simp only [step, Option.some.injEq] at hstep
      subst hstep
      simp [activeCount, Event.isReset, Event.isFailure]

/-! ## The child's listeners -/

/-- C3: the `message` listener of child `p` kills `p` and chains
`displayHeader().then(start)` exactly when the payload is the string
`reset`; for every other payload it performs no effect and the supervisor
state is unchanged. -/
theorem message_reset_iff (h : Host) (s : Supervisor) (p : Nat) (data : JSValue) :
    (data = JSValue.string "reset" →
        onMessage p data = [Effect.consoleLog [LogArg.text "\n🔄 Restarting MD SHOP..."],
          Effect.kill p, Effect.displayHeaderThen Cont.start] ∧
        (performAll s (onMessage p data)).banners = s.banners ++ [Cont.start] ∧
        (performAll s (onMessage p data)).children =
          updateChild ChildStatus.kill s.children p ∧
        (performAll s (onMessage p data)).timers = s.timers) ∧
      (data ≠ JSValue.string "reset" →
        onMessage p data = [] ∧ performAll s (onMessage p data) = s) ∧
      ((∃ e ∈ onMessage p data, e.isKill = true ∨ e.isDisplayHeader = true) ↔
        data = JSValue.string "reset") ∧
      (∀ q, Effect.kill q ∈ onMessage p data → q = p) ∧
      step h s (Event.message p data) =
        (if isActive s p then some (performAll s (onMessage p data)) else none) ∧
      runCont h Cont.start = start h := by
  refine ⟨?_, ?_, ?_, ?_, rfl, rfl⟩
  · intro hd
    subst hd
    refine ⟨rfl, rfl, rfl, rfl⟩
  · intro hd
    have hne : ¬ strictEqString data "reset" = true := fun hh =>
      hd ((strictEqString_iff data "reset").1 hh)
    have hnil : onMessage p data = [] := by simp [onMessage, hne]
    exact ⟨hnil, by rw [hnil]; rfl⟩
  · constructor
    · rintro ⟨e, he, _⟩
      by_contra hd
      have hne : ¬ strictEqString data "reset" = true := fun hh =>
        hd ((strictEqString_iff data "reset").1 hh)
      simp [onMessage, hne] at he
    · intro hd
      subst hd
      exact ⟨Effect.kill p, by simp [onMessage, strictEqString], Or.inl rfl⟩
  · intro q hq
    by_cases hr : strictEqString data "reset" = true
    · simp [onMessage, hr] at hq
      exact hq
    · simp [onMessage, hr] at hq

/-- C2: for every exit of an active child, with any code and signal, the
`exit` listener registers exactly one timer, of 2000 ms, and spawns nothing;
a firing timer chains exactly one `displayHeader().then(start)`, and a
completed `.then(start)` banner calls `start()` exactly once: one `spawn`
call, which leaves one running child when `process.argv[0]` is defined. -/
theorem exit_schedules_one_restart (h : Host) (s : Supervisor) (p : Nat) (elapsed : String)
    (code : Option Nat) (signal : Option String) (hp : isActive s p = true) :
    (onExit elapsed code signal).filter Effect.isSetTimeout = [Effect.setTimeout 2000] ∧
      (∀ e ∈ onExit elapsed code signal, e.isSpawn = false ∧ e.isDisplayHeader = false) ∧
      onRestartTimer.filter Effect.isDisplayHeader = [Effect.displayHeaderThen Cont.start] ∧
      (∀ e ∈ onRestartTimer, e.isSpawn = false ∧ e.isSetTimeout = false) ∧
      (∃ s1, step h s (Event.exit p elapsed code signal) = some s1 ∧
        s1.timers = s.timers ++ [2000] ∧ s1.banners = s.banners ∧
        s1.children = updateChild (fun _ => ChildStatus.exited) s.children p) ∧
      (∀ (t : Supervisor) (d : Nat) (rest : List Nat), t.timers = d :: rest →
        ∃ t1, step h t Event.timer = some t1 ∧ t1.timers = rest ∧
          t1.banners = t.banners ++ [Cont.start] ∧ t1.children = t.children) ∧
      (∀ (u : Supervisor) (rest : List Cont), u.banners = Cont.start :: rest →
        ∃ u1, step h u Event.banner = some u1 ∧ u1.banners = rest ∧
          u1.timers = u.timers ∧
          u1.children =
            u.children ++ (if h.argv.head?.isSome then [ChildStatus.running] else []) ∧
          u1.trace =
            u.trace ++ [Effect.spawn h.argv.head? (startArgs h) (spawnEnv h)]) := by
  refine ⟨rfl, ?_, rfl, ?_, ?_, ?_, ?_⟩
  · intro e he
    simp only [onExit, List.mem_cons, List.mem_singleton, List.not_mem_nil, or_false] at he
    rcases he with rfl | rfl <;> exact ⟨rfl, rfl⟩
  · intro e he
    simp only [onRestartTimer, List.mem_cons, List.mem_singleton, List.not_mem_nil,
      or_false] at he
    rcases he with rfl | rfl <;> exact ⟨rfl, rfl⟩
  · refine ⟨performAll { s with children := updateChild (fun _ => ChildStatus.exited) s.children p }
      (onExit elapsed code signal), ?_, rfl, rfl, rfl⟩
    simp only [step, hp, if_true]
  · intro t d rest ht
    obtain ⟨cs, ts, bs, tr⟩ := t
    simp only at ht
    subst ht
    exact ⟨_, rfl, rfl, rfl, rfl⟩
  · intro u rest hu
    obtain ⟨cs, ts, bs, tr⟩ := u
    simp only at hu
    subst hu
    refine ⟨performAll ⟨cs, ts, rest, tr⟩ (runCont h Cont.start), rfl, rfl, rfl, ?_, rfl⟩
    show cs ++ spawnedBy h.argv.head? = _
    cases h.argv.head? <;> rfl

theorem exit_schedules_one_restart_witness :
    isActive (performAll initial (start exampleHost)) 0 = true ∧
      (∃ s1, step exampleHost (performAll initial (start exampleHost))
          (Event.exit 0 "12.34" (some 1) none) = some s1 ∧
        s1.timers = [2000] ∧ s1.children = [ChildStatus.exited]) := by
  refine ⟨rfl, ?_⟩
  obtain ⟨s1, h1, h2, _, h4⟩ :=
    (exit_schedules_one_restart exampleHost (performAll initial (start exampleHost)) 0
      "12.34" (some 1) none rfl).2.2.2.2.1
  exact ⟨s1, h1, h2, h4⟩

/-! ## Runs of the event loop -/

theorem runEvents_append (h : Host) (s : Supervisor) (a b : List Event) :
    runEvents h s (a ++ b) = (runEvents h s a).bind (fun s1 => runEvents h s1 b) := by
  induction a generalizing s with
  | nil => rfl
  | cons e rest ih =>
    simp only [List.cons_append, runEvents]
    cases step h s e with
    | none => rfl
    | some s1 => simpa using ih s1

theorem run_pending (h : Host) (hcmd : h.argv.head?.isSome = true) (evs : List Event)
    (s s1 : Supervisor) (hgood : ∀ e ∈ evs, e.isFailure = false)
    (hrun : runEvents h s evs = some s1) :
    activeCount s + s.timers.length + s.banners.length ≤
      activeCount s1 + s1.timers.length + s1.banners.length := by
  induction evs generalizing s with
  | nil =>
    simp only [runEvents, Option.some.injEq] at hrun
    subst hrun
    exact le_refl _
  | cons e rest ih =>
    simp only [runEvents] at hrun
    cases hs : step h s e with
    | none => simp [hs] at hrun
    | some s2 =>
      rw [hs] at hrun
      have h1 := (step_pending h s s2 e hs).2 (hgood e (List.mem_cons_self _ _)) hcmd
      have h2 := ih s2 (fun e1 he1 => hgood e1 (List.mem_cons_of_mem _ he1)) hrun
      exact le_trans h1 h2

theorem run_pending_without_reset (h : Host) (evs : List Event) (s s1 : Supervisor)
    (hquiet : ∀ e ∈ evs, e.isReset = false) (hrun : runEvents h s evs = some s1) :
    activeCount s1 + s1.timers.length + s1.banners.length ≤
      activeCount s + s.timers.length + s.banners.length := by
  induction evs generalizing s with
  | nil =>
    simp only [runEvents, Option.some.injEq] at hrun
    subst hrun
    exact le_refl _
  | cons e rest ih =>
    simp only [runEvents] at hrun
    cases hs : step h s e with
    | none => simp [hs] at hrun
    | some s2 =>
      rw [hs] at hrun
      have h1 := (step_pending h s s2 e hs).1 (hquiet e (List.mem_cons_self _ _))
      have h2 := ih s2 (fun e1 he1 => hquiet e1 (List.mem_cons_of_mem _ he1)) hrun
      exact le_trans h2 h1

theorem exists_enabled_event (h : Host) (s : Supervisor)
    (hpos : 0 < activeCount s + s.timers.length + s.banners.length) :
    ∃ e s1, e.isFailure = false ∧ step h s e = some s1 := by
  obtain ⟨cs, ts, bs, tr⟩ := s
  cases bs with
  | cons k rest => exact ⟨Event.banner, _, rfl, rfl⟩
  | nil =>
    cases ts with
    | cons d rest => exact ⟨Event.timer, _, rfl, rfl⟩
    | nil =>
      simp only [activeCount, List.length_nil, Nat.add_zero] at hpos
      obtain ⟨c, hc⟩ := List.exists_mem_of_length_pos hpos
      obtain ⟨hmem, hact⟩ := List.mem_filter.1 hc
      obtain ⟨p, hp⟩ := List.getElem?_of_mem hmem
      have hactive : isActive ⟨cs, [], [], tr⟩ p = true := by
        simp only [isActive, hp]
        exact hact
      refine ⟨Event.exit p "0.00" none none, ?_⟩
      simp only [step, hactive, if_true]
      exact ⟨_, rfl, rfl⟩

/-! ## The unattended restart loop -/

theorem replicate_exited_getElem (k : Nat) :
    (List.replicate k ChildStatus.exited ++ [ChildStatus.running])[k]? =
      some ChildStatus.running := by
  induction k with
  | zero => rfl
  | succ n ih => simp [List.replicate_succ]

theorem replicate_exited_update (k : Nat) :
    updateChild (fun _ => ChildStatus.exited)
        (List.replicate k ChildStatus.exited ++ [ChildStatus.running]) k =
      List.replicate (k + 1) ChildStatus.exited := by
  induction k with
  | zero => rfl
  | succ n ih =>
    rw [List.replicate_succ, List.cons_append, updateChild, ih]
    rfl

theorem exitRound_run (h : Host) (node : String) (hcmd : h.argv.head? = some node) (k : Nat)
    (tr : List Effect) (x : String × Option Nat × Option String) :
    runEvents h ⟨List.replicate k ChildStatus.exited ++ [ChildStatus.running], [], [], tr⟩
        (exitRound k x) =
      some ⟨List.replicate (k + 1) ChildStatus.exited ++ [ChildStatus.running], [], [],
        tr ++ (onExit x.1 x.2.1 x.2.2 ++ (onRestartTimer ++ start h))⟩ := by
  have hact : isActive
      ⟨List.replicate k ChildStatus.exited ++ [ChildStatus.running], [], [], tr⟩ k = true := by
    simp only [isActive, replicate_exited_getElem]
    rfl
  simp only [exitRound, runEvents, step, hact, if_true, Option.some_bind, replicate_exited_update,
    onExit, onRestartTimer, runCont, start, performAll, perform, hcmd, spawnedBy,
    List.foldl_cons, List.foldl_nil, List.nil_append, List.append_assoc, List.cons_append]

theorem crashLoop_run (h : Host) (node : String) (hcmd : h.argv.head? = some node)
    (exits : List (String × Option Nat × Option String)) :
    ∀ (k : Nat) (tr : List Effect),
      ∃ tr1, runEvents h
          ⟨List.replicate k ChildStatus.exited ++ [ChildStatus.running], [], [], tr⟩
          (crashLoop k exits) =
        some ⟨List.replicate (k + exits.length) ChildStatus.exited ++ [ChildStatus.running],
          [], [], tr1⟩ ∧
        (tr1.filter Effect.isSpawn).length = (tr.filter Effect.isSpawn).length + exits.length ∧
        tr1.filter Effect.isSetTimeout =
          tr.filter Effect.isSetTimeout ++
            List.replicate exits.length (Effect.setTimeout 2000) := by
  induction exits with
  | nil =>
    intro k tr
    exact ⟨tr, rfl, rfl, by simp⟩
  | cons x xs ih =>
    intro k tr
    obtain ⟨tr1, hrun, hspawn, htimer⟩ :=
      ih (k + 1) (tr ++ (onExit x.1 x.2.1 x.2.2 ++ (onRestartTimer ++ start h)))
    refine ⟨tr1, ?_, ?_, ?_⟩
    · rw [crashLoop, runEvents_append, exitRound_run h node hcmd, Option.some_bind, hrun]
      simp only [List.length_cons]
      rw [show k + 1 + xs.length = k + (xs.length + 1) by omega]
    · rw [hspawn]
      simp [List.filter_append, onExit, onRestartTimer, start, List.filter_cons,
        Effect.isSpawn]
      omega
    · rw [htimer]
      simp [List.filter_append, onExit, onRestartTimer, start, List.filter_cons,
        Effect.isSetTimeout, List.replicate_succ]

/-- C9, as amended: on a host with `process.argv[0]` defined, in a run where
every banner completes, every spawn starts a process and every child exits on
its own, after `n` exits, each followed by its timer firing and its banner
completing, `start()` has made exactly `n + 1` spawn calls, exactly `n`
timers were registered, all of 2000 ms, and the last child is running; and
from every state reached without a host failure some event other than a host
failure is enabled, so no counter, cap or backoff ends the loop. -/
theorem crash_loop_restarts (h : Host) (node : String) (args : List String)
    (exits : List (String × Option Nat × Option String)) :
    (∃ s, runEvents { h with argv := node :: args } initial
          (Event.banner :: crashLoop 0 exits) = some s ∧
        (s.trace.filter Effect.isSpawn).length = exits.length + 1 ∧
        s.children = List.replicate exits.length ChildStatus.exited ++ [ChildStatus.running] ∧
        s.trace.filter Effect.isSetTimeout =
          List.replicate exits.length (Effect.setTimeout 2000) ∧
        s.timers = [] ∧ s.banners = []) ∧
      (∀ e ∈ Event.banner :: crashLoop 0 exits, e.isFailure = false ∧ e.isReset = false) ∧
      (∀ (evs : List Event) (s : Supervisor), (∀ e ∈ evs, e.isFailure = false) →
        runEvents { h with argv := node :: args } initial evs = some s →
        ∃ e s1, e.isFailure = false ∧ step { h with argv := node :: args } s e = some s1) := by
  refine ⟨?_, ?_, ?_⟩
  · obtain ⟨tr1, hrun, hspawn, htimer⟩ :=
      crashLoop_run { h with argv := node :: args } node rfl exits 0
        [Effect.consoleClear, Effect.displayHeaderThen Cont.announceThenStart,
          Effect.consoleLog [LogArg.text "\n✅ Initialization complete. Starting MD...\n"],
          Effect.spawn (some node) (startArgs { h with argv := node :: args })
            (spawnEnv { h with argv := node :: args })]
    refine ⟨⟨List.replicate (0 + exits.length) ChildStatus.exited ++ [ChildStatus.running],
      [], [], tr1⟩, ?_, ?_, ?_, ?_, rfl, rfl⟩
    · have hfirst : step { h with argv := node :: args } initial Event.banner = some
          ⟨List.replicate 0 ChildStatus.exited ++ [ChildStatus.running], [], [],
            [Effect.consoleClear, Effect.displayHeaderThen Cont.announceThenStart,
              Effect.consoleLog [LogArg.text "\n✅ Initialization complete. Starting MD...\n"],
              Effect.spawn (some node) (startArgs { h with argv := node :: args })
                (spawnEnv { h with argv := node :: args })]⟩ := rfl
      rw [runEvents, hfirst, Option.some_bind, hrun]
    · have hone : (List.filter Effect.isSpawn tr1).length = 1 + exits.length := by
        simpa [List.filter_cons, Effect.isSpawn] using hspawn
      show (List.filter Effect.isSpawn tr1).length = exits.length + 1
      omega
    · simp
    · simpa [List.filter_cons, Effect.isSetTimeout] using htimer
  · have hloop : ∀ (xs : List (String × Option Nat × Option String)) (k : Nat),
        ∀ e ∈ crashLoop k xs, e.isFailure = false ∧ e.isReset = false := by
      intro xs
      induction xs with
      | nil => intro k e he; simp [crashLoop] at he
      | cons x rest ih =>
        intro k e he
        simp only [crashLoop, exitRound, List.cons_append, List.nil_append, List.mem_cons] at he
        rcases he with rfl | rfl | rfl | he
        · exact ⟨rfl, rfl⟩
        · exact ⟨rfl, rfl⟩
        · exact ⟨rfl, rfl⟩
        · exact ih (k + 1) e he
    intro e he
    rcases List.mem_cons.1 he with rfl | he1
    · exact ⟨rfl, rfl⟩
    · exact hloop exits 0 e he1
  · intro evs s hgood hrun
    have hle := run_pending { h with argv := node :: args } rfl evs initial s hgood hrun
    apply exists_enabled_event
    have hinit : activeCount initial + initial.timers.length + initial.banners.length = 1 := rfl
    omega

/-- A failed spawn and a rejected banner each leave the supervisor in a state
where no event is enabled.  On the first boot: the spawn fails and the only
child handle never exits; or the banner rejects and no child is ever spawned.
In the restart loop: child 0 exits, its timer fires, and the banner of the
restart rejects, so the second `start()` is never made. -/
theorem failed_spawn_or_banner_is_terminal :
    (∃ s, runEvents exampleHost initial [Event.bannerSpawnFailed] = some s ∧
        s.children = [ChildStatus.failed] ∧ s.timers = [] ∧ s.banners = [] ∧
        ∀ e, step exampleHost s e = none) ∧
      (∃ s, runEvents exampleHost initial [Event.bannerRejected] = some s ∧
        s.children = [] ∧ s.timers = [] ∧ s.banners = [] ∧
        ∀ e, step exampleHost s e = none) ∧
      (∃ s, runEvents exampleHost initial
          [Event.banner, Event.exit 0 "4.00" (some 1) none, Event.timer,
            Event.bannerRejected] = some s ∧
        s.children = [ChildStatus.exited] ∧ (s.trace.filter Effect.isSpawn).length = 1 ∧
        ∀ e, step exampleHost s e = none) := by
  have hdead : ∀ (c : ChildStatus) (tr : List Effect), c.active = false →
      ∀ e, step exampleHost ⟨[c], [], [], tr⟩ e = none := by
    intro c tr hc e
    have hidle : ∀ p, isActive ⟨[c], [], [], tr⟩ p = false := by
      intro p
      cases p with
      | zero => simpa [isActive] using hc
      | succ q => simp [isActive]
    cases e with
    | message p data => simp [step, hidle]
    | exit p elapsed code signal => simp [step, hidle]
    | timer => rfl
    | banner => rfl
    | bannerSpawnFailed => rfl
    | bannerRejected => rfl
  have hnone : ∀ (tr : List Effect) (e : Event),
      step exampleHost ⟨[], [], [], tr⟩ e = none := by
    intro tr e
    cases e with
    | message p data => simp [step, isActive]
    | exit p elapsed code signal => simp [step, isActive]
    | timer => rfl
    | banner => rfl
    | bannerSpawnFailed => rfl
    | bannerRejected => rfl
  refine ⟨⟨⟨[ChildStatus.failed], [], [], _⟩, rfl, rfl, rfl, rfl, hdead _ _ rfl⟩,
    ⟨⟨[], [], [], _⟩, rfl, rfl, rfl, rfl, hnone _⟩,
    ⟨⟨[ChildStatus.exited], [], [], _⟩, rfl, rfl, rfl, hdead _ _ rfl⟩⟩

/-- With no `reset` message, every reachable state has at most one active
child: active children, pending timers and pending banners never number more
than one in all. -/
theorem single_child_without_reset (h : Host) (evs : List Event) (s : Supervisor)
    (hquiet : ∀ e ∈ evs, e.isReset = false) (hrun : runEvents h initial evs = some s) :
    activeCount s + s.timers.length + s.banners.length ≤ 1 := by
  have hkeep := run_pending_without_reset h evs initial s hquiet hrun
  have hinit : activeCount initial + initial.timers.length + initial.banners.length = 1 := rfl
  omega

/-! ## Divergences from the specification -/

/-- C1: a `reset` from the running child leads to two active children.  The
message listener kills child 0 and chains a restart; the killed child's exit
then schedules a second restart through the timer.  Once both banners have
completed, children 1 and 2 run side by side.  Already before the killed
child has exited, the first banner may complete and spawn child 1. -/
theorem reset_then_exit_spawns_two_children :
    (runEvents exampleHost initial
        [Event.banner, Event.message 0 (JSValue.string "reset"),
          Event.exit 0 "3.20" none (some "SIGTERM"), Event.banner, Event.timer,
          Event.banner]).map (fun s => (s.children, activeCount s)) =
      some ([ChildStatus.exited, ChildStatus.running, ChildStatus.running], 2) ∧
    (runEvents exampleHost initial
        [Event.banner, Event.message 0 (JSValue.string "reset"),
          Event.banner]).map (fun s => (s.children, activeCount s)) =
      some ([ChildStatus.killed, ChildStatus.running], 2) := by
  constructor <;> decide

/-- C10: a child that exits with code 0 is logged as `null`: in
`code || signal` the number 0 is falsy, so the signal, `null`, is reported. -/
theorem exit_code_zero_reported_as_null :
    exitReport (some 0) none = "null" ∧
      onExit "1.50" (some 0) none =
        [Effect.consoleError [LogArg.text "❌ Process exited after 1.50s with code: null"],
          Effect.setTimeout 2000] := by
  constructor <;> rfl

/-- A non-zero exit code is reported as the code, and a signal termination as
the signal name. -/
theorem exitReport_nonzero_or_signal (c : Nat) (hc : c ≠ 0) (signal : Option String)
    (name : String) :
    exitReport (some c) signal = toString (c : Int) ∧ exitReport none (some name) = name := by
  constructor
  · have hc1 : ((c : Int) ≠ 0) := by exact_mod_cast hc
    simp [exitReport, jsOr, codeValue, JSValue.truthy, hc1, JSValue.toStr]
  · simp [exitReport, jsOr, codeValue, signalValue, JSValue.truthy, JSValue.toStr]

/-- C5: an `uncaughtException` with error `null` (`throw null`) and an
`unhandledRejection` with reason `undefined` (`Promise.reject()`) make the
listener itself throw a `TypeError` at the read of `.code`, before any log
line is written. -/
theorem fault_guards_throw_on_nullish :
    onUncaughtException exampleHost JSValue.null =
        ⟨[], some "TypeError: Cannot read properties of null (reading code)"⟩ ∧
      (onUnhandledRejection [] JSValue.undefined 7).2 =
        ⟨[], some "TypeError: Cannot read properties of undefined (reading code)"⟩ := by
  constructor <;> rfl

/-- For every error or reason other than `null` and `undefined`, both fault
guards complete normally and write to the console. -/
theorem fault_guards_log_on_defined (h : Host) (m : List (Nat × JSValue)) (v : JSValue)
    (p : Nat) (hnull : v ≠ JSValue.null) (hundef : v ≠ JSValue.undefined) :
    (onUncaughtException h v).thrown = none ∧
      (∃ e ∈ (onUncaughtException h v).effects, e.isConsoleWrite = true) ∧
      (onUnhandledRejection m v p).2.thrown = none ∧
      (∃ e ∈ (onUnhandledRejection m v p).2.effects, e.isConsoleWrite = true) := by
  cases v with
  | undefined => exact absurd rfl hundef
  | null => exact absurd rfl hnull
  | boolean b =>
    simp [onUncaughtException, onUnhandledRejection, JSValue.getProp, strictEqString,
      Effect.isConsoleWrite]
  | number n =>
    simp [onUncaughtException, onUnhandledRejection, JSValue.getProp, strictEqString,
      Effect.isConsoleWrite]
  | string s =>
    simp [onUncaughtException, onUnhandledRejection, JSValue.getProp, strictEqString,
      Effect.isConsoleWrite]
  | object props =>
    simp only [onUncaughtException, onUnhandledRejection, JSValue.getProp]
    by_cases hc : strictEqString ((List.lookup "code" props).getD JSValue.undefined) "ENOMEM" = true
    · simp [hc, Effect.isConsoleWrite]
    · simp [hc, Effect.isConsoleWrite]

/-! ## Rejection tracking -/

theorem onUnhandledRejection_map (m : List (Nat × JSValue)) (reason : JSValue) (p : Nat) :
    (onUnhandledRejection m reason p).1 = objectSet m p reason := by
  unfold onUnhandledRejection
  cases reason.getProp "code" with
  | error e => rfl
  | ok c =>
    by_cases hc : strictEqString c "ENOMEM" = true
    · simp [hc]
    · simp [hc]

theorem mem_keys_track_unhandled (m : List (Nat × JSValue)) (reason : JSValue) (q p : Nat) :
    p ∈ objectKeys (track m (RejectionEvent.unhandledRejection reason q)) ↔
      p ∈ objectKeys m ∨ p = q := by
  rw [track, onUnhandledRejection_map]
  exact mem_objectKeys_objectSet m q p reason

theorem mem_keys_track_handled (m : List (Nat × JSValue)) (q p : Nat) :
    p ∈ objectKeys (track m (RejectionEvent.rejectionHandled q)) ↔
      p ∈ objectKeys m ∧ p ≠ q := by
  rw [track, onRejectionHandled]
  exact mem_objectKeys_objectDelete m q p

theorem lastIsUnhandled_of_untouched (p : Nat) (evs : List RejectionEvent)
    (hnone : evs.any (fun e => decide (e.promise = p)) = false) :
    lastIsUnhandled p evs = false := by
  induction evs with
  | nil => rfl
  | cons e rest ih =>
    simp only [List.any_cons, Bool.or_eq_false_iff, decide_eq_false_iff_not] at hnone
    obtain ⟨he, hrest⟩ := hnone
    cases e with
    | unhandledRejection r q =>
      have hq : ¬ q = p := he
      simp [lastIsUnhandled, hrest, hq]
    | rejectionHandled q => simp [lastIsUnhandled, hrest]

theorem mem_keys_trackAll (evs : List RejectionEvent) :
    ∀ (m : List (Nat × JSValue)) (p : Nat),
      p ∈ objectKeys (trackAll m evs) ↔
        (if evs.any (fun e => decide (e.promise = p)) = true then lastIsUnhandled p evs = true
          else p ∈ objectKeys m) := by
  induction evs with
  | nil =>
    intro m p
    simp [trackAll]
  | cons e rest ih =>
    intro m p
    have hstep : trackAll m (e :: rest) = trackAll (track m e) rest := rfl
    rw [hstep, ih (track m e) p]
    by_cases hrest : rest.any (fun e1 => decide (e1.promise = p)) = true
    · simp [lastIsUnhandled, hrest]
    · have hfalse : rest.any (fun e1 => decide (e1.promise = p)) = false :=
        Bool.eq_false_iff.2 hrest
      simp only [List.any_cons, lastIsUnhandled, hfalse, Bool.or_false, Bool.false_eq_true,
        if_false, decide_eq_true_eq]
      cases e with
      | unhandledRejection r q =>
        rw [mem_keys_track_unhandled]
        by_cases hq : q = p
        · simp [hq, RejectionEvent.promise]
        · have hq1 : ¬ p = q := fun hh => hq hh.symm
          simp [hq, hq1, RejectionEvent.promise]
      | rejectionHandled q =>
        rw [mem_keys_track_handled]
        by_cases hq : q = p
        · simp [hq, RejectionEvent.promise]
        · have hq1 : ¬ p = q := fun hh => hq hh.symm
          simp [hq, hq1, RejectionEvent.promise]

theorem objectGet_track_other (m : List (Nat × JSValue)) (e : RejectionEvent) (p : Nat)
    (hp : e.promise ≠ p) : objectGet (track m e) p = objectGet m p := by
  cases e with
  | unhandledRejection r q =>
    rw [track, onUnhandledRejection_map]
    exact objectGet_objectSet_other m q p r (fun hh => hp hh.symm)
  | rejectionHandled q =>
    rw [track, onRejectionHandled]
    exact objectGet_objectDelete_other m q p (fun hh => hp hh.symm)

/-- C6: starting from the empty map, after any sequence of
`unhandledRejection` and `rejectionHandled` events a promise is a key of
`unhandledRejections` exactly when its most recent event is an
`unhandledRejection`; right after a `rejectionHandled` for `p` that follows an
`unhandledRejection` for `p`, `p` is absent whatever happened in between and
whatever the map held before; and an event about another promise leaves the
entry of `p` as it was. -/
theorem rejection_tracking (evs : List RejectionEvent) (p : Nat) :
    (p ∈ objectKeys (trackAll [] evs) ↔ lastIsUnhandled p evs = true) ∧
      (∀ (m : List (Nat × JSValue)) (r : JSValue) (mid : List RejectionEvent),
        p ∉ objectKeys (trackAll m
          (RejectionEvent.unhandledRejection r p :: (mid ++ [RejectionEvent.rejectionHandled p])))) ∧
      (∀ (m : List (Nat × JSValue)) (r : JSValue),
        p ∈ objectKeys (trackAll m (evs ++ [RejectionEvent.unhandledRejection r p]))) ∧
      (∀ (m : List (Nat × JSValue)) (e : RejectionEvent), e.promise ≠ p →
        objectGet (track m e) p = objectGet m p) := by
  refine ⟨?_, ?_, ?_, ?_⟩
  · rw [mem_keys_trackAll]
    by_cases hany : evs.any (fun e => decide (e.promise = p)) = true
    · simp [hany]
    · have hfalse : evs.any (fun e => decide (e.promise = p)) = false := by
        simpa using hany
      rw [lastIsUnhandled_of_untouched p evs hfalse]
      simp [hfalse, objectKeys]
  · intro m r mid
    have hsplit : trackAll m (RejectionEvent.unhandledRejection r p ::
        (mid ++ [RejectionEvent.rejectionHandled p])) =
        track (trackAll m (RejectionEvent.unhandledRejection r p :: mid))
          (RejectionEvent.rejectionHandled p) := by
      simp [trackAll, List.foldl_append]
    rw [hsplit, mem_keys_track_handled]
    simp
  · intro m r
    have hsplit : trackAll m (evs ++ [RejectionEvent.unhandledRejection r p]) =
        track (trackAll m evs) (RejectionEvent.unhandledRejection r p) := by
      simp [trackAll, List.foldl_append]
    rw [hsplit, mem_keys_track_unhandled]
    exact Or.inr rfl
  · intro m e he
    exact objectGet_track_other m e p he

/-! ## The version gate -/

theorem digitChar_isDigit (d : Nat) (hd : d < 10) :
    (Nat.digitChar d).isDigit = true ∧ (Nat.digitChar d).toNat - 48 = d := by
  interval_cases d <;> exact ⟨by decide, by decide⟩

theorem digitsValue_append (pre : List Char) (c : Char) :
    digitsValue (pre ++ [c]) = 10 * digitsValue pre + (c.toNat - 48) := by
  simp [digitsValue, List.foldl_append]

theorem toDigitsCore_decimal (fuel : Nat) :
    ∀ (n : Nat) (ds : List Char), n < fuel →
      ∃ pre, Nat.toDigitsCore 10 fuel n ds = pre ++ ds ∧ pre ≠ [] ∧
        (∀ c ∈ pre, c.isDigit = true) ∧ digitsValue pre = n := by
  induction fuel with
  | zero => intro n ds hn; omega
  | succ f ih =>
    intro n ds hn
    have hd := digitChar_isDigit (n % 10) (Nat.mod_lt _ (by omega))
    by_cases hq : n / 10 = 0
    · refine ⟨[Nat.digitChar (n % 10)], ?_, by simp, ?_, ?_⟩
      · simp [Nat.toDigitsCore, hq]
      · intro c hc
        simp only [List.mem_singleton] at hc
        rw [hc]; exact hd.1
      · have hlt : n < 10 := by omega
        have hval := (digitChar_isDigit n hlt).2
        simp [digitsValue, Nat.mod_eq_of_lt hlt, hval]
    · have hlt : n / 10 < f := by omega
      obtain ⟨pre, hpre, hne, hdig, hval⟩ := ih (n / 10) (Nat.digitChar (n % 10) :: ds) hlt
      refine ⟨pre ++ [Nat.digitChar (n % 10)], ?_, by simp, ?_, ?_⟩
      · simp [Nat.toDigitsCore, hq, hpre]
      · intro c hc
        rcases List.mem_append.1 hc with h1 | h1
        · exact hdig c h1
        · simp only [List.mem_singleton] at h1
          rw [h1]; exact hd.1
      · rw [digitsValue_append, hval, hd.2]
        omega

theorem toDigits_decimal (n : Nat) :
    Nat.toDigits 10 n ≠ [] ∧ (∀ c ∈ Nat.toDigits 10 n, c.isDigit = true) ∧
      digitsValue (Nat.toDigits 10 n) = n := by
  obtain ⟨pre, hpre, hne, hdig, hval⟩ := toDigitsCore_decimal (n + 1) n [] (by omega)
  have heq : Nat.toDigits 10 n = pre := by simpa [Nat.toDigits] using hpre
  rw [heq]
  exact ⟨hne, hdig, hval⟩

theorem isDigit_bounds (c : Char) (hc : c.isDigit = true) : 48 ≤ c.toNat ∧ c.toNat ≤ 57 := by
  simp only [Char.isDigit, Bool.and_eq_true, decide_eq_true_eq] at hc
  exact ⟨hc.1, hc.2⟩

theorem takeWhile_append_stop {α : Type} (f : α → Bool) (pre : List α) (x : α) (r : List α)
    (hpre : ∀ c ∈ pre, f c = true) (hx : f x = false) :
    (pre ++ x :: r).takeWhile f = pre := by
  induction pre with
  | nil => simp [List.takeWhile_cons, hx]
  | cons c rest ih =>
    have hc : f c = true := hpre c (List.mem_cons_self _ _)
    simp [List.takeWhile_cons, hc, ih (fun c1 h1 => hpre c1 (List.mem_cons_of_mem _ h1))]

theorem parseInt10_digits (pre : List Char) (hne : pre ≠ [])
    (hdig : ∀ c ∈ pre, c.isDigit = true) : parseInt10 pre = some (digitsValue pre : Int) := by
  cases pre with
  | nil => exact absurd rfl hne
  | cons c rest =>
    have hc := isDigit_bounds c (hdig c (List.mem_cons_self _ _))
    have hws : isStrWhiteSpace c = false := by
      simp only [isStrWhiteSpace, List.mem_cons, List.mem_singleton, List.not_mem_nil,
        or_false, Bool.or_eq_false_iff, decide_eq_false_iff_not, Bool.and_eq_false_imp,
        decide_eq_true_eq]
      omega
    have hminus : c ≠ '-' := by
      intro hh; rw [hh] at hc; revert hc; decide
    have hplus : c ≠ '+' := by
      intro hh; rw [hh] at hc; revert hc; decide
    have htake : (c :: rest).takeWhile Char.isDigit = c :: rest :=
      List.takeWhile_eq_self_iff.2 hdig
    have hsign : parseSign (c :: rest) = (false, c :: rest) := by
      unfold parseSign
      split
      · rename_i heq
        exact absurd (List.cons.inj heq).1 hminus
      · rename_i heq
        exact absurd (List.cons.inj heq).1 hplus
      · rfl
    simp [parseInt10, List.dropWhile_cons, hws, hsign, htake]

theorem major_of_decimal (M : Nat) (rest : String) :
    major (toString M ++ "." ++ rest) = some (M : Int) := by
  obtain ⟨hne, hdig, hval⟩ := toDigits_decimal M
  have hdata : (toString M ++ "." ++ rest).data = Nat.toDigits 10 M ++ '.' :: rest.data := by
    simp [String.data_append, toString, Nat.repr, List.asString]
  have hstop : (Nat.toDigits 10 M ++ '.' :: rest.data).takeWhile (fun c => decide (c ≠ '.')) =
      Nat.toDigits 10 M := by
    apply takeWhile_append_stop
    · intro c hc
      have hb := isDigit_bounds c (hdig c hc)
      have hdot : c ≠ '.' := by
        intro hh; rw [hh] at hb; revert hb; decide
      simp [hdot]
    · simp
  rw [major, hdata, hstop, parseInt10_digits _ hne hdig, hval]

theorem step_trace (P : Effect → Prop) (h : Host)
    (hmessage : ∀ p data, ∀ x ∈ onMessage p data, P x)
    (hexit : ∀ elapsed code signal, ∀ x ∈ onExit elapsed code signal, P x)
    (htimer : ∀ x ∈ onRestartTimer, P x)
    (hcont : ∀ k, ∀ x ∈ runCont h k, P x)
    (s s1 : Supervisor) (e : Event) (hstep : step h s e = some s1)
    (hs : ∀ x ∈ s.trace, P x) : ∀ x ∈ s1.trace, P x := by
  have hgrow : ∀ (t : Supervisor) (es : List Effect), (∀ x ∈ t.trace, P x) →
      (∀ x ∈ es, P x) → ∀ x ∈ (performAll t es).trace, P x := by
    intro t es ht hes x hx
    rw [performAll_trace] at hx
    rcases List.mem_append.1 hx with h1 | h1
    · exact ht x h1
    · exact hes x h1
  obtain ⟨cs, ts, bs, tr⟩ := s
  cases e with
  | message p data =>
    by_cases hact : isActive ⟨cs, ts, bs, tr⟩ p = true
    · simp only [step, hact, if_true, Option.some.injEq] at hstep
      subst hstep
      exact hgrow _ _ hs (hmessage p data)
    · simp [step, hact] at hstep
  | exit p elapsed code signal =>
    by_cases hact : isActive ⟨cs, ts, bs, tr⟩ p = true
    · simp only [step, hact, if_true, Option.some.injEq] at hstep
      subst hstep
      exact hgrow _ _ hs (hexit elapsed code signal)
    · simp [step, hact] at hstep
  | timer =>
    cases ts with
    | nil => simp [step] at hstep
    | cons d rest =>
      simp only [step, Option.some.injEq] at hstep
      subst hstep
      exact hgrow _ _ hs htimer
  | banner =>
    cases bs with
    | nil => simp [step] at hstep
    | cons k rest =>
      simp only [step, Option.some.injEq] at hstep
      subst hstep
      exact hgrow _ _ hs (hcont k)
  | bannerSpawnFailed =>
    cases bs with
    | nil => simp [step] at hstep
    | cons k rest =>
      cases hcmd : h.argv.head? with
      | none => simp [step, hcmd] at hstep
      | some cmd =>
        simp only [step, hcmd, Option.some.injEq] at hstep
        subst hstep
        exact hgrow ⟨cs, ts, rest, tr⟩ _ hs (hcont k)
  | bannerRejected =>
    cases bs with
    | nil => simp [step] at hstep
    | cons k rest =>
      simp only [step, Option.some.injEq] at hstep
      subst hstep
      exact hs

theorem run_trace (P : Effect → Prop) (h : Host)
    (hmessage : ∀ p data, ∀ x ∈ onMessage p data, P x)
    (hexit : ∀ elapsed code signal, ∀ x ∈ onExit elapsed code signal, P x)
    (htimer : ∀ x ∈ onRestartTimer, P x)
    (hcont : ∀ k, ∀ x ∈ runCont h k, P x) (evs : List Event) :
    ∀ s s1 : Supervisor, runEvents h s evs = some s1 →
      (∀ x ∈ s.trace, P x) → ∀ x ∈ s1.trace, P x := by
  induction evs with
  | nil =>
    intro s s1 hrun hs
    simp only [runEvents, Option.some.injEq] at hrun
    subst hrun
    exact hs
  | cons e rest ih =>
    intro s s1 hrun hs
    simp only [runEvents] at hrun
    cases hstep : step h s e with
    | none => simp [hstep] at hrun
    | some s2 =>
      rw [hstep] at hrun
      exact ih s2 s1 hrun (step_trace P h hmessage hexit htimer hcont s s2 e hstep hs)

theorem versionErrorBanner_lines (v : String) (y : Effect) (hy : y ∈ versionErrorBanner v)
    (hclear : y ≠ Effect.consoleClear) :
    y = Effect.consoleLog [] ∨ y = Effect.consoleLog [LogArg.figlet "ERROR"] ∨
      ∃ t : String, y = Effect.consoleLog [LogArg.text t] ∧ t.data.head? ≠ some '\n' := by
  simp only [versionErrorBanner, List.mem_cons, List.mem_singleton, List.not_mem_nil,
    or_false] at hy
  rcases hy with rfl | rfl | rfl | rfl | rfl | rfl | rfl | rfl | rfl | rfl | rfl
  · exact absurd rfl hclear
  · exact Or.inr (Or.inr ⟨_, rfl, by decide⟩)
  · exact Or.inr (Or.inl rfl)
  · exact Or.inl rfl
  · exact Or.inr (Or.inr ⟨_, rfl, by decide⟩)
  · exact Or.inr (Or.inr ⟨_, rfl, by simp [String.data_append]⟩)
  · exact Or.inl rfl
  · exact Or.inr (Or.inr ⟨_, rfl, by decide⟩)
  · exact Or.inr (Or.inr ⟨_, rfl, by decide⟩)
  · exact Or.inr (Or.inr ⟨_, rfl, by decide⟩)
  · exact Or.inr (Or.inr ⟨_, rfl, by decide⟩)

theorem newline_log_not_banner (v t : String) (ht : t.data.head? = some '\n') (y : Effect)
    (hy : y ∈ versionErrorBanner v) (hclear : y ≠ Effect.consoleClear) :
    Effect.consoleLog [LogArg.text t] ≠ y := by
  intro heq
  rcases versionErrorBanner_lines v y hy hclear with rfl | rfl | ⟨u, rfl, hu⟩
  · simp at heq
  · simp at heq
  · simp only [Effect.consoleLog.injEq, List.cons.injEq, LogArg.text.injEq, and_true] at heq
    subst heq
    exact hu ht

theorem loop_effect_not_banner (h : Host) (v : String) (x : Effect)
    (hx : (∃ p data, x ∈ onMessage p data) ∨ (∃ elapsed code signal, x ∈ onExit elapsed code signal) ∨
      x ∈ onRestartTimer ∨ (∃ k, x ∈ runCont h k) ∨ x ∈ initial.trace) :
    (∀ c, x ≠ Effect.processExit c) ∧
      ∀ y ∈ versionErrorBanner v, y ≠ Effect.consoleClear → x ≠ y := by
  have hother : ∀ z : Effect, (∀ args, z ≠ Effect.consoleLog args) →
      ∀ y ∈ versionErrorBanner v, y ≠ Effect.consoleClear → z ≠ y := by
    intro z hz y hy hclear heq
    rcases versionErrorBanner_lines v y hy hclear with rfl | rfl | ⟨u, rfl, _⟩ <;>
      exact hz _ heq
  rcases hx with ⟨p, data, hx⟩ | ⟨elapsed, code, signal, hx⟩ | hx | ⟨k, hx⟩ | hx
  · by_cases hr : strictEqString data "reset" = true
    · simp only [onMessage, hr, if_true, List.mem_cons, List.mem_singleton, List.not_mem_nil,
        or_false] at hx
      rcases hx with rfl | rfl | rfl
      · exact ⟨fun c => by simp, newline_log_not_banner v _ (by decide)⟩
      · exact ⟨fun c => by simp, hother _ (fun args => by simp)⟩
      · exact ⟨fun c => by simp, hother _ (fun args => by simp)⟩
    · simp [onMessage, hr] at hx
  · simp only [onExit, List.mem_cons, List.mem_singleton, List.not_mem_nil, or_false] at hx
    rcases hx with rfl | rfl
    · exact ⟨fun c => by simp, hother _ (fun args => by simp)⟩
    · exact ⟨fun c => by simp, hother _ (fun args => by simp)⟩
  · simp only [onRestartTimer, List.mem_cons, List.mem_singleton, List.not_mem_nil,
      or_false] at hx
    rcases hx with rfl | rfl
    · exact ⟨fun c => by simp, newline_log_not_banner v _ (by decide)⟩
    · exact ⟨fun c => by simp, hother _ (fun args => by simp)⟩
  · cases k with
    | start =>
      simp only [runCont, start, List.mem_singleton] at hx
      subst hx
      exact ⟨fun c => by simp, hother _ (fun args => by simp)⟩
    | announceThenStart =>
      simp only [runCont, start, List.mem_cons, List.mem_singleton, List.not_mem_nil,
        or_false] at hx
      rcases hx with rfl | rfl
      · exact ⟨fun c => by simp, newline_log_not_banner v _ (by decide)⟩
      · exact ⟨fun c => by simp, hother _ (fun args => by simp)⟩
  · have hinit : initial.trace =
        [Effect.consoleClear, Effect.displayHeaderThen Cont.announceThenStart] := rfl
    rw [hinit] at hx
    simp only [List.mem_cons, List.mem_singleton, List.not_mem_nil, or_false] at hx
    rcases hx with rfl | rfl
    · refine ⟨fun c => by simp, ?_⟩
      intro y hy hclear heq
      exact hclear heq.symm
    · exact ⟨fun c => by simp, hother _ (fun args => by simp)⟩

/-- C4: on a host whose version string is `M.rest` with `M` a decimal major:
when `M < 20` the program clears the screen, prints the version-error banner,
whose eleven calls are listed, and calls `process.exit(1)`, with no
`displayHeader()` chain and no spawn; when `M ≥ 20` it goes on to
`displayHeader().then(...)`, whose completion logs and calls `start()`, and
in no run of the event loop is `process.exit` called or a line of the
version-error banner printed. -/
theorem version_gate (h : Host) (M : Nat) (rest : String) :
    boot { h with nodeVersion := toString M ++ "." ++ rest } =
        (if M < 20 then
          Boot.halted (Effect.consoleClear ::
            (versionErrorBanner (toString M ++ "." ++ rest) ++ [Effect.processExit 1]))
        else Boot.supervising initial) ∧
      versionErrorBanner (toString M ++ "." ++ rest) =
        [Effect.consoleClear,
          Effect.consoleLog [LogArg.text (String.mk (List.replicate 70 '═'))],
          Effect.consoleLog [LogArg.figlet "ERROR"],
          Effect.consoleLog [],
          Effect.consoleLog
            [LogArg.text "This application requires Node.js 20+ to run optimally."],
          Effect.consoleLog
            [LogArg.text ("Current version installed: " ++ (toString M ++ "." ++ rest))],
          Effect.consoleLog [],
          Effect.consoleLog [LogArg.text "Recommended installation methods:"],
          Effect.consoleLog [LogArg.text "• Using nvm: nvm install 20 && nvm use 20"],
          Effect.consoleLog
            [LogArg.text "• Direct download: https://nodejs.org/en/download/"],
          Effect.consoleLog [LogArg.text (String.mk (List.replicate 70 '═'))]] ∧
      (∀ e ∈ Effect.consoleClear ::
          (versionErrorBanner (toString M ++ "." ++ rest) ++ [Effect.processExit 1]),
        (∀ c a env, e ≠ Effect.spawn c a env) ∧ (∀ k, e ≠ Effect.displayHeaderThen k)) ∧
      (Effect.consoleClear ::
          (versionErrorBanner (toString M ++ "." ++ rest) ++ [Effect.processExit 1])).getLast? =
        some (Effect.processExit 1) ∧
      initial.trace = [Effect.consoleClear, Effect.displayHeaderThen Cont.announceThenStart] ∧
      initial.banners = [Cont.announceThenStart] ∧
      initial.children = [] ∧
      (runEvents { h with nodeVersion := toString M ++ "." ++ rest } initial [Event.banner]).map
          (fun s => (s.children, s.trace)) =
        some (if h.argv.head?.isSome then [ChildStatus.running] else [],
          [Effect.consoleClear, Effect.displayHeaderThen Cont.announceThenStart,
            Effect.consoleLog [LogArg.text "\n✅ Initialization complete. Starting MD...\n"],
            Effect.spawn h.argv.head? (startArgs h) (spawnEnv h)]) ∧
      (∀ (evs : List Event) (s : Supervisor),
        runEvents { h with nodeVersion := toString M ++ "." ++ rest } initial evs = some s →
          ∀ x ∈ s.trace, (∀ c, x ≠ Effect.processExit c) ∧
            ∀ y ∈ versionErrorBanner (toString M ++ "." ++ rest),
              y ≠ Effect.consoleClear → x ≠ y) := by
  refine ⟨?_, ?_, ?_, ?_, rfl, rfl, rfl, ?_, ?_⟩
  · simp only [boot, major_of_decimal, jsLess]
    by_cases hM : M < 20
    · have hMi : (M : Int) < 20 := by exact_mod_cast hM
      simp [hM, hMi]
    · have hMi : ¬ (M : Int) < 20 := by exact_mod_cast hM
      simp [hM, hMi, initial]
  · have h1 : "This application requires " ++ "Node.js 20+" ++ " to run optimally." =
        "This application requires Node.js 20+ to run optimally." := by decide
    have h2 : "• Using nvm: " ++ "nvm install 20 && nvm use 20" =
        "• Using nvm: nvm install 20 && nvm use 20" := by decide
    have h3 : "• Direct download: " ++ "https://nodejs.org/en/download/" =
        "• Direct download: https://nodejs.org/en/download/" := by decide
    rw [versionErrorBanner, h1, h2, h3]
  · intro e he
    simp only [versionErrorBanner, List.cons_append, List.nil_append, List.mem_cons,
      List.mem_singleton, List.not_mem_nil, or_false] at he
    rcases he with rfl | rfl | rfl | rfl | rfl | rfl | rfl | rfl | rfl | rfl | rfl | rfl | rfl <;>
      exact ⟨fun c a env => by simp, fun k => by simp⟩
  · simp [versionErrorBanner]
  · cases hcmd : h.argv.head? with
    | none => simp [runEvents, step, initial, perform, performAll, runCont, start, hcmd,
        spawnedBy, startArgs, spawnEnv]
    | some cmd => simp [runEvents, step, initial, perform, performAll, runCont, start, hcmd,
        spawnedBy, startArgs, spawnEnv]
  · intro evs s hrun
    have hP := loop_effect_not_banner { h with nodeVersion := toString M ++ "." ++ rest }
      (toString M ++ "." ++ rest)
    exact run_trace
      (fun x => (∀ c, x ≠ Effect.processExit c) ∧
        ∀ y ∈ versionErrorBanner (toString M ++ "." ++ rest), y ≠ Effect.consoleClear → x ≠ y)
      { h with nodeVersion := toString M ++ "." ++ rest }
      (fun p data x hx => hP x (Or.inl ⟨p, data, hx⟩))
      (fun elapsed code signal x hx => hP x (Or.inr (Or.inl ⟨elapsed, code, signal, hx⟩)))
      (fun x hx => hP x (Or.inr (Or.inr (Or.inl hx))))
      (fun k x hx => hP x (Or.inr (Or.inr (Or.inr (Or.inl ⟨k, hx⟩)))))
      evs initial s hrun
      (fun x hx => hP x (Or.inr (Or.inr (Or.inr (Or.inr hx)))))

/-- A version string whose first component holds no decimal digits parses to
`NaN`, and `NaN < 20` is false: the gate lets it through. -/
theorem version_gate_examples :
    major "18.19.1" = some 18 ∧ major "20.11.0" = some 20 ∧ major "9.0.0" = some 9 ∧
      major "v20.1.0" = none ∧ jsLess (major "v20.1.0") 20 = false ∧
      jsLess (major "19.9.0") 20 = true ∧ jsLess (major "22.0.0") 20 = false := by
  decide

end TranzBot
